import Mathlib

/-!
Shallow embedding of `src/scraper/src/processors/rating_calculator.py`
(together with the `ScrapedReview` record from `src/scraper/src/scrapers/base.py`)
and proofs about it.

Python floats are modelled by exact arithmetic: rationals (`ℚ`) everywhere the
code only adds, multiplies and divides, and reals (`ℝ`) where `statistics.stdev`
introduces a square root.  The two external effects of the module — the
text-understanding backend called inside `analyze_review`, and the summary
generation — are modelled as explicit oracle parameters, exactly at the
boundary the code's `try/except` blocks draw.
-/

namespace Shopii

/-- Model of the `ScrapedReview` dataclass (`scrapers/base.py`).
`posted_at` (a `datetime`) is carried as an opaque string; it is never
inspected by the rating calculator. -/
structure ScrapedReview where
  source_type : String
  source_url : String
  source_name : String
  content : String
  upvotes : Option Int
  comment_count : Option Int
  author : Option String
  posted_at : Option String
deriving Repr, DecidableEq

/-- Model of the `ReviewAnalysis` dataclass. -/
structure ReviewAnalysis where
  sentiment : ℚ
  pros : List String
  cons : List String
  credibility_weight : ℚ
deriving Repr, DecidableEq

/-- The `SOURCE_CREDIBILITY` table (module-level dict, lines 37-45). -/
def SOURCE_CREDIBILITY : List (String × ℚ) :=
  [("wirecutter", 95/100),
   ("rtings", 95/100),
   ("techradar", 85/100),
   ("youtube", 70/100),
   ("reddit", 60/100),
   ("forum", 55/100),
   ("unknown", 50/100)]

/-- Python `dict.get(key, default)` on an association list. -/
def dictGet (l : List (String × ℚ)) (t : String) (dflt : ℚ) : ℚ :=
  match l with
  | [] => dflt
  | (k, v) :: rest => if t = k then v else dictGet rest t dflt

/-- `SOURCE_CREDIBILITY.get(review.source_type, 0.5)` (line 56). -/
def sourceCredibilityGet (t : String) : ℚ :=
  dictGet SOURCE_CREDIBILITY t (1/2)

/-- The engagement bonus computed on lines 59-66.  Python's
`if review.upvotes:` is falsy both for `None` and for `0`. -/
def engagementBonus (upvotes : Option Int) : ℚ :=
  match upvotes with
  | none => 0
  | some u =>
    if u = 0 then 0
    else if u > 100 then 1/10
    else if u > 50 then 1/20
    else if u > 10 then 1/50
    else 0

/-- `credibility = min(1.0, base_credibility + engagement_bonus)` (line 68). -/
def credibilityOf (source_type : String) (upvotes : Option Int) : ℚ :=
  min 1 (sourceCredibilityGet source_type + engagementBonus upvotes)

/-- Outcome of the external text-understanding call inside `analyze_review`
(lines 70-106): the request may raise (`callFailed`), the regex
`\x7b[^\x7d]+\x7d` may find no fragment (`noFragment`), `json.loads` /
`float(...)` / list slicing may raise (`parseError`), or a structured
fragment with a sentiment number and pros/cons lists is obtained (`parsed`). -/
inductive BackendOutcome where
  | callFailed
  | noFragment
  | parseError
  | parsed (sentiment : ℚ) (pros : List String) (cons : List String)
deriving Repr, DecidableEq

/-- Model of `RatingCalculator.analyze_review` (lines 54-114), parameterised by
the outcome of the backend call.  On the `parsed` path the code keeps at most
3 pros and 3 cons (`[:3]`); every other path falls through to the neutral
default of lines 109-114. -/
def analyze_review (review : ScrapedReview) (outcome : BackendOutcome) :
    ReviewAnalysis :=
  let credibility := credibilityOf review.source_type review.upvotes
  match outcome with
  | .parsed s pros cons =>
      { sentiment := s, pros := pros.take 3, cons := cons.take 3,
        credibility_weight := credibility }
  | _ =>
      { sentiment := 0, pros := [], cons := [], credibility_weight := credibility }

/-! ### Aggregation helpers (`calculate_rating`, lines 136-199) -/

/-- `analyses = [analyze_review(r) for r in reviews[:20]]` (lines 137-140). -/
def analysesOf (analyze : ScrapedReview → ReviewAnalysis)
    (reviews : List ScrapedReview) : List ReviewAnalysis :=
  (reviews.take 20).map analyze

/-- `total_weight = sum(a.credibility_weight for a in analyses)` (line 143). -/
def totalWeight (analyses : List ReviewAnalysis) : ℚ :=
  (analyses.map (fun a => a.credibility_weight)).sum

/-- `sum(a.sentiment * a.credibility_weight for a in analyses)` (line 145). -/
def weightedSentimentSum (analyses : List ReviewAnalysis) : ℚ :=
  (analyses.map (fun a => a.sentiment * a.credibility_weight)).sum

/-- The aggregated sentiment (lines 143-147). -/
def sentimentScore (analyses : List ReviewAnalysis) : ℚ :=
  if 0 < totalWeight analyses then
    weightedSentimentSum analyses / totalWeight analyses
  else 0

/-- `pro.lower().strip()` (lines 155, 159). -/
def normalizePhrase (s : String) : String := s.toLower.trim

/-- One step of `all_pros[pro_lower] = all_pros.get(pro_lower, 0) + 1` on an
insertion-ordered association list (Python dicts preserve insertion order). -/
def bumpCount (counts : List (String × Nat)) (key : String) :
    List (String × Nat) :=
  match counts with
  | [] => [(key, 1)]
  | (k, n) :: rest =>
      if k = key then (k, n + 1) :: rest else (k, n) :: bumpCount rest key

/-- Fold one item's phrase list into the frequency dict, skipping phrases that
normalize to the empty string (`if pro_lower:`, lines 156, 160). -/
def addPhrases (counts : List (String × Nat)) (phrases : List String) :
    List (String × Nat) :=
  phrases.foldl
    (fun acc p =>
      let q := normalizePhrase p
      if q = "" then acc else bumpCount acc q)
    counts

/-- The `all_pros` dict after the loop of lines 153-161. -/
def prosCounts (analyses : List ReviewAnalysis) : List (String × Nat) :=
  analyses.foldl (fun acc a => addPhrases acc a.pros) []

/-- The `all_cons` dict after the loop of lines 153-161. -/
def consCounts (analyses : List ReviewAnalysis) : List (String × Nat) :=
  analyses.foldl (fun acc a => addPhrases acc a.cons) []

/-- Insert an entry into a list sorted by descending count, before the first
entry of count ≤ its own: the unique placement of a stable descending sort. -/
def insertDesc (x : String × Nat) : List (String × Nat) → List (String × Nat)
  | [] => [x]
  | y :: ys => if x.2 < y.2 then y :: insertDesc x ys else x :: y :: ys

/-- Model of `sorted(d.items(), key=lambda x: x[1], reverse=True)`
(lines 164-165): Python's `sorted` is a stable sort, so on the total preorder
`key = count` it is the unique permutation that is sorted by descending count
and keeps equal-count entries in their original (insertion) order; this
insertion sort produces exactly that permutation (proved below). -/
def sortDescByCount (l : List (String × Nat)) : List (String × Nat) :=
  l.foldr insertDesc []

/-- `sorted(...)[:5]` (lines 164-165). -/
def topPhrases (counts : List (String × Nat)) : List (String × Nat) :=
  (sortDescByCount counts).take 5

/-- Python `str.capitalize()`: first character upper-cased, the rest
lower-cased (line 218-219). -/
def capitalize (s : String) : String :=
  match s.data with
  | [] => ""
  | c :: cs => String.mk (c.toUpper :: cs.map Char.toLower)

/-- Sample variance, the square of `statistics.stdev` (line 172):
Σ (x - mean)² / (n - 1). -/
def sampleVariance (l : List ℚ) : ℚ :=
  let mean := l.sum / (l.length : ℚ)
  ((l.map (fun x => (x - mean) ^ 2)).sum) / ((l.length : ℚ) - 1)

/-- `statistics.stdev` (line 172): the sample standard deviation. -/
noncomputable def sampleStdev (l : List ℚ) : ℝ :=
  Real.sqrt ((sampleVariance l : ℚ) : ℝ)

/-- Reliability (lines 168-175): `max(0, 1 - stdev)` when more than one
sentiment is available, `0.5` otherwise. -/
noncomputable def reliabilityScore (sentiments : List ℚ) : ℝ :=
  if 1 < sentiments.length then max 0 (1 - sampleStdev sentiments)
  else 1/2

/-- `sum(r.upvotes or 0 for r in reviews)` (line 178): `or 0` maps both
`None` and `0` to `0` and keeps every other value. -/
def totalUpvotes (reviews : List ScrapedReview) : Int :=
  (reviews.map (fun r => r.upvotes.getD 0)).sum

/-- `sum(r.comment_count or 0 for r in reviews)` (line 179). -/
def totalComments (reviews : List ScrapedReview) : Int :=
  (reviews.map (fun r => r.comment_count.getD 0)).sum

/-- `popularity_raw = total_upvotes / 100 + total_comments / 50` (line 180). -/
def popularityRaw (reviews : List ScrapedReview) : ℚ :=
  (totalUpvotes reviews : ℚ) / 100 + (totalComments reviews : ℚ) / 50

/-- `popularity_score = min(1.0, popularity_raw / len(reviews))` (line 181):
the divisor is the full, uncapped review count. -/
def popularityScore (reviews : List ScrapedReview) : ℚ :=
  min 1 (popularityRaw reviews / (reviews.length : ℚ))

/-- `value_score = 0.5 + sentiment_score * 0.2` (line 184). -/
def valueScore (sentiment : ℚ) : ℚ := 1/2 + sentiment * (2/10)

/-- `confidence = min(1.0, len(reviews)/15) * 0.6 + reliability_score * 0.4`
(lines 187-188). -/
noncomputable def confidenceOf (numReviews : Nat) (reliability : ℝ) : ℝ :=
  min 1 ((numReviews : ℝ) / 15) * (6/10) + reliability * (4/10)

/-- Python `int(...)` on a float: truncation toward zero. -/
noncomputable def pyInt (x : ℝ) : ℤ := if 0 ≤ x then ⌊x⌋ else ⌈x⌉

/-- Round-half-to-even to the nearest integer (the tie-breaking rule of
Python's built-in `round`). -/
noncomputable def halfEven (x : ℝ) : ℤ :=
  if x - ⌊x⌋ < 1/2 then ⌊x⌋
  else if (1 : ℝ)/2 < x - ⌊x⌋ then ⌊x⌋ + 1
  else if Even ⌊x⌋ then ⌊x⌋ else ⌊x⌋ + 1

/-- Python `round(x, 2)`: round to the nearest multiple of 1/100, ties to
even. -/
noncomputable def round2 (x : ℝ) : ℝ := (halfEven (x * 100) : ℝ) / 100

/-- Model of the `ProductRating` dataclass. -/
structure ProductRating where
  ai_rating : ℤ
  confidence : ℝ
  sentiment_score : ℝ
  reliability_score : ℝ
  value_score : ℝ
  popularity_score : ℝ
  sources_analyzed : Nat
  pros : List String
  cons : List String
  summary : String

/-- The raw final rating before `int(...)` and clamping (lines 192-198). -/
noncomputable def rawRating (sentiment : ℚ) (reliability : ℝ)
    (value popularity : ℚ) : ℝ :=
  50 + (sentiment : ℝ) * 30 + reliability * 10 + (value : ℝ) * 5
    + (popularity : ℝ) * 5

/-- The non-empty branch of `calculate_rating` (lines 136-221).
`analyze` is `analyze_review` with its backend outcome fixed per review;
`summarize` stands for `_generate_summary` (an external text call whose
arguments are exactly those of line 202-208). -/
noncomputable def mainRating (analyze : ScrapedReview → ReviewAnalysis)
    (summarize : String → ℚ → List String → List String → Nat → String)
    (product_name : String) (reviews : List ScrapedReview) : ProductRating :=
  let analyses := analysesOf analyze reviews
  let sScore := sentimentScore analyses
  let top_pros := topPhrases (prosCounts analyses)
  let top_cons := topPhrases (consCounts analyses)
  let rel := reliabilityScore (analyses.map (fun a => a.sentiment))
  let pop := popularityScore reviews
  let val := valueScore sScore
  let conf := confidenceOf reviews.length rel
  { ai_rating := max 0 (min 100 (pyInt (rawRating sScore rel val pop)))
    confidence := round2 conf
    sentiment_score := round2 (sScore : ℝ)
    reliability_score := round2 rel
    value_score := round2 (val : ℝ)
    popularity_score := round2 (pop : ℝ)
    sources_analyzed := reviews.length
    pros := top_pros.map (fun p => capitalize p.1)
    cons := top_cons.map (fun p => capitalize p.1)
    summary := summarize product_name sScore (top_pros.map (fun p => p.1))
      (top_cons.map (fun p => p.1)) reviews.length }

/-- The fixed neutral rating returned for an empty review list
(lines 122-134). -/
noncomputable def neutralRating : ProductRating :=
  { ai_rating := 50
    confidence := 0
    sentiment_score := 0
    reliability_score := 0
    value_score := 1/2
    popularity_score := 0
    sources_analyzed := 0
    pros := []
    cons := []
    summary := "No reviews available for analysis." }

/-- Model of `RatingCalculator.calculate_rating` (lines 116-221). -/
noncomputable def calculate_rating (analyze : ScrapedReview → ReviewAnalysis)
    (summarize : String → ℚ → List String → List String → Nat → String)
    (product_name : String) (reviews : List ScrapedReview) : ProductRating :=
  if reviews.isEmpty then neutralRating
  else mainRating analyze summarize product_name reviews

/-! ### The Credibility Model as the spec words it (§4.4)

The spec enumerates the base table over abstract source tags
`{editorial: 0.95, video: 0.70, social-discussion: 0.60, forum: 0.55,
unknown: 0.50}`; in the code's table the editorial sources are
`"wirecutter"` and `"rtings"`, the video source is `"youtube"` and the
social-discussion source is `"reddit"`. -/

/-- The spec's base-weight table over its abstract source tags. -/
def specBaseWeight : String → ℚ
  | "editorial" => 95/100
  | "video" => 70/100
  | "social-discussion" => 60/100
  | "forum" => 55/100
  | _ => 50/100

/-- The spec's credibility model: base table plus engagement bonus, clamped
to 1. -/
def specWeight (tag : String) (upvotes : Option Int) : ℚ :=
  min 1 (specBaseWeight tag + engagementBonus upvotes)

/-! ### Concrete instances used in witnesses and counterexamples -/

/-- A concrete review used to instantiate hypotheses in witnesses. -/
def exReview : ScrapedReview :=
  { source_type := "reddit"
    source_url := "https://example.org/1"
    source_name := "r/headphones"
    content := "great bass"
    upvotes := some 7
    comment_count := none
    author := none
    posted_at := none }

/-- Two equally weighted analyses with sentiments 1.0 and -1.0. -/
def opposedPair : List ReviewAnalysis :=
  [⟨1, [], [], 6/10⟩, ⟨-1, [], [], 6/10⟩]

/-- The analyzer with every backend call failing: each review maps to the
neutral analysis with its computed credibility weight. -/
def exAnalyze : ScrapedReview → ReviewAnalysis :=
  fun r => analyze_review r .callFailed

/-- A trivial summary oracle. -/
def exSummarize : String → ℚ → List String → List String → Nat → String :=
  fun _ _ _ _ _ => ""

/-- Read the frequency recorded for a key in the association-list model of
the Python dict (first matching entry, 0 when absent). -/
def countOf (counts : List (String × Nat)) (k : String) : Nat :=
  match counts with
  | [] => 0
  | (k', n) :: rest => if k' = k then n else countOf rest k

/-! ### Helper lemmas -/

lemma sourceCredibilityGet_ge (t : String) : 1/2 ≤ sourceCredibilityGet t := by
  unfold sourceCredibilityGet SOURCE_CREDIBILITY
  simp only [dictGet]
  split_ifs <;> norm_num

lemma engagementBonus_nonneg (u : Option Int) : 0 ≤ engagementBonus u := by
  rcases u with _ | v
  · norm_num [engagementBonus]
  · simp only [engagementBonus]
    split_ifs <;> norm_num

lemma engagementBonus_mono {u v : Int} (h : u ≤ v) :
    engagementBonus (some u) ≤ engagementBonus (some v) := by
  simp only [engagementBonus]
  split_ifs <;> first | (exfalso; omega) | norm_num

lemma credibilityOf_ge_half (t : String) (u : Option Int) :
    1/2 ≤ credibilityOf t u := by
  have h1 := sourceCredibilityGet_ge t
  have h2 := engagementBonus_nonneg u
  unfold credibilityOf
  exact le_min (by norm_num) (by linarith)

lemma credibilityOf_le_one (t : String) (u : Option Int) :
    credibilityOf t u ≤ 1 :=
  min_le_left _ _

/-- **C6.** The credibility weight is `min(1.0, base + bonus)` where the base
comes from the fixed per-source-type table (the spec's `"editorial"` tag names
the code's editorial sources `"wirecutter"`/`"rtings"`, its `"video"` tag
`"youtube"`, its `"social-discussion"` tag `"reddit"`; unknown types default
to 0.50) and the bonus is 0.10 for upvotes > 100, 0.05 for > 50, 0.02 for
> 10, else 0 — monotone in upvotes; in particular
`weight("editorial", upvotes=None) = 0.95` and
`weight("unknown", upvotes=150) = 0.60`. -/
theorem credibility_model :
    specWeight "editorial" none = 95/100 ∧
    specWeight "unknown" (some 150) = 60/100 ∧
    (∀ u, specWeight "editorial" u = credibilityOf "wirecutter" u
        ∧ specWeight "editorial" u = credibilityOf "rtings" u
        ∧ specWeight "video" u = credibilityOf "youtube" u
        ∧ specWeight "social-discussion" u = credibilityOf "reddit" u
        ∧ specWeight "forum" u = credibilityOf "forum" u
        ∧ specWeight "unknown" u = credibilityOf "unknown" u) ∧
    (∀ t u, credibilityOf t u
        = min 1 (sourceCredibilityGet t + engagementBonus u)) ∧
    (∀ t, t ∉ ["wirecutter", "rtings", "techradar", "youtube", "reddit",
        "forum", "unknown"] →
      ∀ u, credibilityOf t u = min 1 (1/2 + engagementBonus u)) ∧
    engagementBonus none = 0 ∧
    (∀ v : Int, 100 < v → engagementBonus (some v) = 1/10) ∧
    (∀ v : Int, 50 < v → v ≤ 100 → engagementBonus (some v) = 1/20) ∧
    (∀ v : Int, 10 < v → v ≤ 50 → engagementBonus (some v) = 1/50) ∧
    (∀ v : Int, v ≤ 10 → engagementBonus (some v) = 0) ∧
    (∀ t (u v : Int), u ≤ v →
      credibilityOf t (some u) ≤ credibilityOf t (some v)) := by
  refine ⟨?_, ?_, ?_, fun t u => rfl, ?_, rfl, ?_, ?_, ?_, ?_, ?_⟩
  · norm_num [specWeight, specBaseWeight, engagementBonus]
  · rw [show specWeight "unknown" (some 150)
        = min 1 (50/100 + engagementBonus (some 150)) from rfl]
    norm_num [engagementBonus]
  · intro u
    refine ⟨?_, ?_, ?_, ?_, ?_, ?_⟩ <;>
      simp +decide [specWeight, specBaseWeight, credibilityOf,
        sourceCredibilityGet, SOURCE_CREDIBILITY, dictGet]
  · intro t ht u
    simp only [List.mem_cons, not_or] at ht
    obtain ⟨h1, h2, h3, h4, h5, h6, h7, -⟩ := ht
    simp [credibilityOf, sourceCredibilityGet, SOURCE_CREDIBILITY, dictGet,
      h1, h2, h3, h4, h5, h6, h7]
  · intro v hv
    simp only [engagementBonus]
    split_ifs <;> first | (exfalso; omega) | rfl
  · intro v hv hv'
    simp only [engagementBonus]
    split_ifs <;> first | (exfalso; omega) | rfl
  · intro v hv hv'
    simp only [engagementBonus]
    split_ifs <;> first | (exfalso; omega) | rfl
  · intro v hv
    simp only [engagementBonus]
    split_ifs <;> first | (exfalso; omega) | rfl
  · intro t u v huv
    have := engagementBonus_mono huv
    exact min_le_min le_rfl (by linarith)

/-- Witness for C6 at concrete inputs. -/
theorem credibility_model_witness :
    engagementBonus (some 150) = 1/10 ∧
    engagementBonus (some 60) = 1/20 ∧
    engagementBonus (some 11) = 1/50 ∧
    engagementBonus (some (-5)) = 0 ∧
    credibilityOf "reddit" (some 5) ≤ credibilityOf "reddit" (some 500) ∧
    credibilityOf "blog" (some 3) = min 1 (1/2 + engagementBonus (some 3)) :=
  ⟨credibility_model.2.2.2.2.2.2.1 150 (by norm_num),
   credibility_model.2.2.2.2.2.2.2.1 60 (by norm_num) (by norm_num),
   credibility_model.2.2.2.2.2.2.2.2.1 11 (by norm_num) (by norm_num),
   credibility_model.2.2.2.2.2.2.2.2.2.1 (-5) (by norm_num),
   credibility_model.2.2.2.2.2.2.2.2.2.2 "reddit" 5 500 (by norm_num),
   credibility_model.2.2.2.2.1 "blog" (by decide) (some 3)⟩

/-- **C7.** When the text-understanding call fails or yields no parseable
fragment, `analyze_review` returns the neutral fallback (sentiment 0, empty
pros/cons) carrying exactly the precomputed credibility weight; on every
outcome the credibility weight is the precomputed one, never altered. -/
theorem analyze_review_fallback (review : ScrapedReview)
    (outcome : BackendOutcome) :
    ((outcome = .callFailed ∨ outcome = .noFragment ∨ outcome = .parseError) →
      analyze_review review outcome =
        { sentiment := 0, pros := [], cons := [],
          credibility_weight :=
            credibilityOf review.source_type review.upvotes }) ∧
    (analyze_review review outcome).credibility_weight
      = credibilityOf review.source_type review.upvotes := by
  cases outcome <;> simp [analyze_review]

/-- Witness for C7 at a concrete review and failing outcome. -/
theorem analyze_review_fallback_witness :
    analyze_review exReview .callFailed =
      { sentiment := 0, pros := [], cons := [],
        credibility_weight := credibilityOf "reddit" (some 7) } :=
  (analyze_review_fallback exReview .callFailed).1 (Or.inl rfl)

lemma totalWeight_nonneg {l : List ReviewAnalysis}
    (h : ∀ a ∈ l, 0 ≤ a.credibility_weight) : 0 ≤ totalWeight l := by
  refine List.sum_nonneg ?_
  intro x hx
  rw [List.mem_map] at hx
  obtain ⟨a, ha, rfl⟩ := hx
  exact h a ha

lemma totalWeight_ge_half {l : List ReviewAnalysis} (hne : l ≠ [])
    (h : ∀ a ∈ l, 1/2 ≤ a.credibility_weight) : 1/2 ≤ totalWeight l := by
  rcases l with _ | ⟨a, rest⟩
  · exact absurd rfl hne
  · have h1 : 1/2 ≤ a.credibility_weight := h a (List.mem_cons_self a rest)
    have h2 : 0 ≤ totalWeight rest :=
      totalWeight_nonneg fun b hb => le_trans (by norm_num)
        (h b (List.mem_cons_of_mem a hb))
    unfold totalWeight at *
    simp only [List.map_cons, List.sum_cons]
    linarith

lemma calculate_rating_of_ne_nil (analyze : ScrapedReview → ReviewAnalysis)
    (summarize : String → ℚ → List String → List String → Nat → String)
    (product_name : String) {reviews : List ScrapedReview}
    (h : reviews ≠ []) :
    calculate_rating analyze summarize product_name reviews
      = mainRating analyze summarize product_name reviews := by
  unfold calculate_rating
  rw [if_neg]
  simpa [List.isEmpty_iff] using h

/-- **C3.** For every list of analyzed items with nonnegative credibility
weights (the declared range of `credibilityWeight` is `[0,1]`), the aggregated
sentiment equals the credibility-weighted mean
Σ(sentiment × weight) / Σ(weight), and equals 0 when the total weight is 0. -/
theorem sentiment_weighted_mean (analyses : List ReviewAnalysis)
    (h : ∀ a ∈ analyses, 0 ≤ a.credibility_weight) :
    sentimentScore analyses
      = weightedSentimentSum analyses / totalWeight analyses ∧
    (totalWeight analyses = 0 → sentimentScore analyses = 0) := by
  have h0 : 0 ≤ totalWeight analyses := totalWeight_nonneg h
  constructor
  · unfold sentimentScore
    split_ifs with hpos
    · rfl
    · rw [le_antisymm (not_lt.1 hpos) h0, div_zero]
  · intro hz
    unfold sentimentScore
    rw [hz]
    norm_num

/-- Witness for C3: two concrete analyses with weights 0.6 and 1. -/
theorem sentiment_weighted_mean_witness :
    sentimentScore
        [⟨1/2, [], [], 6/10⟩, ⟨-1, [], [], 1⟩]
      = weightedSentimentSum [⟨1/2, [], [], 6/10⟩, ⟨-1, [], [], 1⟩]
        / totalWeight [⟨1/2, [], [], 6/10⟩, ⟨-1, [], [], 1⟩] :=
  (sentiment_weighted_mean [⟨1/2, [], [], 6/10⟩, ⟨-1, [], [], 1⟩]
    (by intro a ha; simp only [List.mem_cons, List.not_mem_nil, or_false] at ha
        rcases ha with rfl | rfl <;> norm_num)).1

/-- **C10.** Every `ReviewAnalysis` produced by `analyze_review` has a
credibility weight in `[0.5, 1]`; hence for every non-empty review list the
total credibility weight of the analysis batch is at least 0.5, so the
zero-total-weight fallback is unreachable and the weighted mean is the value
actually used. -/
theorem total_weight_positive (oracle : ScrapedReview → BackendOutcome) :
    (∀ review outcome,
      1/2 ≤ (analyze_review review outcome).credibility_weight ∧
      (analyze_review review outcome).credibility_weight ≤ 1) ∧
    (∀ reviews : List ScrapedReview, reviews ≠ [] →
      1/2 ≤ totalWeight
          (analysesOf (fun r => analyze_review r (oracle r)) reviews) ∧
      0 < totalWeight
          (analysesOf (fun r => analyze_review r (oracle r)) reviews) ∧
      sentimentScore (analysesOf (fun r => analyze_review r (oracle r)) reviews)
        = weightedSentimentSum
            (analysesOf (fun r => analyze_review r (oracle r)) reviews)
          / totalWeight
            (analysesOf (fun r => analyze_review r (oracle r)) reviews)) := by
  have hw : ∀ review outcome,
      1/2 ≤ (analyze_review review outcome).credibility_weight ∧
      (analyze_review review outcome).credibility_weight ≤ 1 := by
    intro review outcome
    cases outcome <;>
      exact ⟨credibilityOf_ge_half _ _, credibilityOf_le_one _ _⟩
  refine ⟨hw, fun reviews hne => ?_⟩
  have hne' : analysesOf (fun r => analyze_review r (oracle r)) reviews ≠ [] := by
    unfold analysesOf
    simp only [ne_eq, List.map_eq_nil_iff, List.take_eq_nil_iff]
    simpa using hne
  have hmem : ∀ a ∈ analysesOf (fun r => analyze_review r (oracle r)) reviews,
      1/2 ≤ a.credibility_weight := by
    intro a ha
    unfold analysesOf at ha
    rw [List.mem_map] at ha
    obtain ⟨r, _, rfl⟩ := ha
    exact (hw r (oracle r)).1
  have h_half := totalWeight_ge_half hne' hmem
  refine ⟨h_half, by linarith, ?_⟩
  unfold sentimentScore
  rw [if_pos (by linarith)]

/-- Witness for C10 at a one-element review list. -/
theorem total_weight_positive_witness :
    1/2 ≤ totalWeight
        (analysesOf (fun r => analyze_review r .noFragment) [exReview]) :=
  ((total_weight_positive (fun _ => .noFragment)).2 [exReview]
    (by simp)).1

/-- **C5.** An empty review list yields exactly the fixed neutral rating
(score 50, confidence 0, 0 sources, empty pros/cons, the fixed no-data
summary), and every non-empty list takes the main aggregation branch, so the
hard-coded terminal branch fires only on the empty input. -/
theorem empty_reviews_neutral
    (analyze : ScrapedReview → ReviewAnalysis)
    (summarize : String → ℚ → List String → List String → Nat → String)
    (product_name : String) :
    calculate_rating analyze summarize product_name [] = neutralRating ∧
    neutralRating.ai_rating = 50 ∧
    neutralRating.confidence = 0 ∧
    neutralRating.sources_analyzed = 0 ∧
    neutralRating.pros = [] ∧
    neutralRating.cons = [] ∧
    neutralRating.summary = "No reviews available for analysis." ∧
    (∀ reviews : List ScrapedReview, reviews ≠ [] →
      calculate_rating analyze summarize product_name reviews
        = mainRating analyze summarize product_name reviews) := by
  refine ⟨?_, rfl, rfl, rfl, rfl, rfl, rfl,
    fun reviews h => calculate_rating_of_ne_nil _ _ _ h⟩
  simp [calculate_rating]

/-- Witness for C5: the non-empty branch at a concrete one-review input. -/
theorem empty_reviews_neutral_witness :
    calculate_rating (fun r => analyze_review r .callFailed)
        (fun _ _ _ _ _ => "") "X" [exReview]
      = mainRating (fun r => analyze_review r .callFailed)
        (fun _ _ _ _ _ => "") "X" [exReview] :=
  (empty_reviews_neutral (fun r => analyze_review r .callFailed)
    (fun _ _ _ _ _ => "") "X").2.2.2.2.2.2.2 [exReview] (by simp)

/-- **C9.** For N input reviews the returned `sources_analyzed` is N (the
uncapped count); the sentiment and reliability fields are computed from the
analyses of only the first min(N, 20) reviews; and the popularity field sums
upvotes and comments over all N reviews, dividing the raw value by N. -/
theorem sources_and_caps
    (analyze : ScrapedReview → ReviewAnalysis)
    (summarize : String → ℚ → List String → List String → Nat → String)
    (product_name : String) (reviews : List ScrapedReview)
    (h : reviews ≠ []) :
    (calculate_rating analyze summarize product_name reviews).sources_analyzed
      = reviews.length ∧
    (calculate_rating analyze summarize product_name reviews).sentiment_score
      = round2 ((sentimentScore ((reviews.take 20).map analyze) : ℚ) : ℝ) ∧
    (calculate_rating analyze summarize product_name reviews).reliability_score
      = round2 (reliabilityScore
          (((reviews.take 20).map analyze).map (fun a => a.sentiment))) ∧
    (calculate_rating analyze summarize product_name reviews).popularity_score
      = round2 (((min 1 (((totalUpvotes reviews : ℚ) / 100
          + (totalComments reviews : ℚ) / 50) / (reviews.length : ℚ))) : ℚ)
          : ℝ) := by
  rw [calculate_rating_of_ne_nil _ _ _ h]
  exact ⟨rfl, rfl, rfl, rfl⟩

/-- Witness for C9 at a concrete one-review input. -/
theorem sources_and_caps_witness :
    (calculate_rating (fun r => analyze_review r .callFailed)
        (fun _ _ _ _ _ => "") "X" [exReview]).sources_analyzed = 1 :=
  (sources_and_caps (fun r => analyze_review r .callFailed)
    (fun _ _ _ _ _ => "") "X" [exReview] (by simp)).1

/-- **C4.** The reliability score is `max(0, 1 − sample stdev)` of the
per-item sentiments when at least 2 items were analyzed and 0.5 otherwise;
for two equally weighted items with sentiments 1.0 and −1.0 the sentiment
score is 0 and the reliability score is 0 (the sample stdev is √2 > 1). -/
theorem reliability_from_stdev :
    (∀ l : List ℚ, 1 < l.length →
      reliabilityScore l = max 0 (1 - sampleStdev l)) ∧
    (∀ l : List ℚ, ¬ 1 < l.length → reliabilityScore l = 1/2) ∧
    sentimentScore opposedPair = 0 ∧
    reliabilityScore (opposedPair.map (fun a => a.sentiment)) = 0 := by
  refine ⟨fun l hl => by rw [reliabilityScore, if_pos hl],
    fun l hl => by rw [reliabilityScore, if_neg hl], ?_, ?_⟩
  · norm_num [sentimentScore, totalWeight, weightedSentimentSum, opposedPair]
  · have hvar : sampleVariance [(1 : ℚ), -1] = 2 := by
      norm_num [sampleVariance]
    have hmap : opposedPair.map (fun a => a.sentiment) = [(1 : ℚ), -1] := rfl
    rw [hmap, reliabilityScore, if_pos (by norm_num), sampleStdev, hvar]
    have hsqrt : (1 : ℝ) < Real.sqrt 2 := by
      rw [Real.lt_sqrt (by norm_num)]
      norm_num
    have : ((2 : ℚ) : ℝ) = (2 : ℝ) := by norm_num
    rw [this]
    exact max_eq_left (by linarith)

/-- Witness for C4: both guarded branches at concrete lists. -/
theorem reliability_from_stdev_witness :
    reliabilityScore [(0 : ℚ), 1/2]
      = max 0 (1 - sampleStdev [(0 : ℚ), 1/2]) ∧
    reliabilityScore [(1 : ℚ)] = 1/2 :=
  ⟨reliability_from_stdev.1 [(0 : ℚ), 1/2] (by norm_num),
   reliability_from_stdev.2.1 [(1 : ℚ)] (by norm_num)⟩

lemma credibilityOf_reddit_7 : credibilityOf "reddit" (some 7) = 6/10 := by
  rw [credibilityOf,
    show sourceCredibilityGet "reddit" = 60/100 from by
      simp +decide [sourceCredibilityGet, SOURCE_CREDIBILITY, dictGet],
    show engagementBonus (some 7) = 0 from by norm_num [engagementBonus]]
  rw [min_eq_right (by norm_num)]
  norm_num

lemma exAnalyze_exReview :
    analysesOf exAnalyze [exReview] = [⟨0, [], [], 6/10⟩] := by
  have : exAnalyze exReview = ⟨0, [], [], 6/10⟩ := by
    rw [show exAnalyze exReview
        = ⟨0, [], [], credibilityOf "reddit" (some 7)⟩ from rfl,
      credibilityOf_reddit_7]
  simp [analysesOf, this]

/-- **C2 (amended).** For every non-empty input the final integer score is
`clamp(trunc(50 + 30·sentimentScore + 10·reliabilityScore + 5·valueScore
+ 5·popularityScore), 0, 100)`, where `trunc` is Python `int()` — truncation
toward zero, not rounding to the nearest integer. -/
theorem final_score_formula
    (analyze : ScrapedReview → ReviewAnalysis)
    (summarize : String → ℚ → List String → List String → Nat → String)
    (product_name : String) (reviews : List ScrapedReview)
    (h : reviews ≠ []) :
    (calculate_rating analyze summarize product_name reviews).ai_rating
      = max 0 (min 100 (pyInt ((50 : ℝ)
          + 30 * ((sentimentScore (analysesOf analyze reviews) : ℚ) : ℝ)
          + 10 * reliabilityScore
              ((analysesOf analyze reviews).map (fun a => a.sentiment))
          + 5 * ((valueScore (sentimentScore (analysesOf analyze reviews))
              : ℚ) : ℝ)
          + 5 * ((popularityScore reviews : ℚ) : ℝ)))) := by
  rw [calculate_rating_of_ne_nil _ _ _ h]
  simp only [mainRating]
  have harg : rawRating (sentimentScore (analysesOf analyze reviews))
      (reliabilityScore ((analysesOf analyze reviews).map (fun a => a.sentiment)))
      (valueScore (sentimentScore (analysesOf analyze reviews)))
      (popularityScore reviews)
      = (50 : ℝ)
          + 30 * ((sentimentScore (analysesOf analyze reviews) : ℚ) : ℝ)
          + 10 * reliabilityScore
              ((analysesOf analyze reviews).map (fun a => a.sentiment))
          + 5 * ((valueScore (sentimentScore (analysesOf analyze reviews))
              : ℚ) : ℝ)
          + 5 * ((popularityScore reviews : ℚ) : ℝ) := by
    unfold rawRating
    ring
  rw [harg]

/-- Witness for C2's amended theorem at a concrete one-review input. -/
theorem final_score_formula_witness :
    (calculate_rating exAnalyze exSummarize "X" [exReview]).ai_rating
      = max 0 (min 100 (pyInt ((50 : ℝ)
          + 30 * ((sentimentScore (analysesOf exAnalyze [exReview]) : ℚ) : ℝ)
          + 10 * reliabilityScore
              ((analysesOf exAnalyze [exReview]).map (fun a => a.sentiment))
          + 5 * ((valueScore (sentimentScore (analysesOf exAnalyze [exReview]))
              : ℚ) : ℝ)
          + 5 * ((popularityScore [exReview] : ℚ) : ℝ)))) :=
  final_score_formula exAnalyze exSummarize "X" [exReview] (by simp)

/-- **C2 (counterexample).** On a single reddit review with 7 upvotes and a
failed analysis the computed subscores are sentiment 0, reliability 0.5,
value 0.5, popularity 0.07, so the raw score is 57.85: the code returns
`int(57.85) = 57`, while the claimed `clamp(round(...), 0, 100)` is 58. -/
theorem final_score_rounding_counterexample :
    (calculate_rating exAnalyze exSummarize "X" [exReview]).ai_rating = 57 ∧
    max 0 (min 100 (round ((50 : ℝ)
        + 30 * ((sentimentScore (analysesOf exAnalyze [exReview]) : ℚ) : ℝ)
        + 10 * reliabilityScore
            ((analysesOf exAnalyze [exReview]).map (fun a => a.sentiment))
        + 5 * ((valueScore (sentimentScore (analysesOf exAnalyze [exReview]))
            : ℚ) : ℝ)
        + 5 * ((popularityScore [exReview] : ℚ) : ℝ)))) = 58 := by
  have hs : sentimentScore (analysesOf exAnalyze [exReview]) = 0 := by
    rw [exAnalyze_exReview]
    norm_num [sentimentScore, totalWeight, weightedSentimentSum]
  have hrel : reliabilityScore
      ((analysesOf exAnalyze [exReview]).map (fun a => a.sentiment)) = 1/2 := by
    rw [exAnalyze_exReview, reliabilityScore, if_neg (by norm_num)]
  have hpop : popularityScore [exReview] = 7/100 := by
    rw [popularityScore, popularityRaw,
      show totalUpvotes [exReview] = 7 from rfl,
      show totalComments [exReview] = 0 from rfl]
    rw [show (([exReview] : List ScrapedReview).length : ℚ) = 1 by norm_num]
    rw [min_eq_right (by norm_num)]
    norm_num
  have hval : valueScore 0 = 1/2 := by
    norm_num [valueScore]
  constructor
  · rw [calculate_rating_of_ne_nil _ _ _ (by simp)]
    simp only [mainRating]
    rw [show analysesOf exAnalyze [exReview]
          = analysesOf exAnalyze [exReview] from rfl]
    rw [rawRating, hs, hrel, hpop, hval]
    have : ((0 : ℚ) : ℝ) * 30 = 0 := by norm_num
    rw [pyInt, if_pos (by push_cast; norm_num)]
    have hfloor : ⌊(50 : ℝ) + ((0 : ℚ) : ℝ) * 30 + (1/2 : ℝ) * 10
        + ((1/2 : ℚ) : ℝ) * 5 + ((7/100 : ℚ) : ℝ) * 5⌋ = 57 := by
      rw [Int.floor_eq_iff]
      push_cast
      norm_num
    rw [hfloor]
    decide
  · rw [hs, hrel, hpop, hval]
    have hround : round ((50 : ℝ) + 30 * ((0 : ℚ) : ℝ) + 10 * (1/2 : ℝ)
        + 5 * ((1/2 : ℚ) : ℝ) + 5 * ((7/100 : ℚ) : ℝ)) = 58 := by
      rw [round_eq, Int.floor_eq_iff]
      push_cast
      norm_num
    rw [hround]
    decide

/-! ### Range lemmas for C1 -/

lemma halfEven_ge {x : ℝ} {n : ℤ} (h : (n : ℝ) ≤ x) : n ≤ halfEven x := by
  have hfl : n ≤ ⌊x⌋ := Int.le_floor.2 h
  unfold halfEven
  split_ifs <;> omega

lemma halfEven_le {x : ℝ} {n : ℤ} (h : x ≤ (n : ℝ)) : halfEven x ≤ n := by
  have hfl : ⌊x⌋ ≤ n := by
    have := Int.floor_le_floor h
    rwa [Int.floor_intCast] at this
  unfold halfEven
  split_ifs with h1 h2 h3
  · exact hfl
  all_goals
    (have hne : ⌊x⌋ ≠ n := by
      intro he
      have hx : (⌊x⌋ : ℝ) + 1/2 ≤ x := by linarith [not_lt.1 h1]
      rw [he] at hx
      linarith
     omega)

lemma round2_le {x : ℝ} {n : ℤ} (h : x ≤ (n : ℝ)) : round2 x ≤ n := by
  unfold round2
  have hh : halfEven (x * 100) ≤ 100 * n := by
    refine halfEven_le ?_
    push_cast
    linarith
  calc (halfEven (x * 100) : ℝ) / 100 ≤ ((100 * n : ℤ) : ℝ) / 100 := by
        apply div_le_div_of_nonneg_right ?_ (by norm_num)
        exact_mod_cast hh
    _ = n := by push_cast; ring

lemma round2_ge {x : ℝ} {n : ℤ} (h : (n : ℝ) ≤ x) : (n : ℝ) ≤ round2 x := by
  unfold round2
  have hh : 100 * n ≤ halfEven (x * 100) := by
    refine halfEven_ge ?_
    push_cast
    linarith
  calc (n : ℝ) = ((100 * n : ℤ) : ℝ) / 100 := by push_cast; ring
    _ ≤ (halfEven (x * 100) : ℝ) / 100 := by
        apply div_le_div_of_nonneg_right ?_ (by norm_num)
        exact_mod_cast hh

lemma halfEven_intCast (n : ℤ) : halfEven (n : ℝ) = n := by
  unfold halfEven
  rw [Int.floor_intCast]
  rw [if_pos (by norm_num)]

lemma reliabilityScore_mem (l : List ℚ) :
    0 ≤ reliabilityScore l ∧ reliabilityScore l ≤ 1 := by
  unfold reliabilityScore
  split_ifs
  · have hs : 0 ≤ sampleStdev l := Real.sqrt_nonneg _
    exact ⟨le_max_left _ _, max_le (by norm_num) (by linarith)⟩
  · norm_num

lemma weightedSentimentSum_bounds {l : List ReviewAnalysis}
    (h : ∀ a ∈ l, -1 ≤ a.sentiment ∧ a.sentiment ≤ 1 ∧
      0 ≤ a.credibility_weight) :
    -(totalWeight l) ≤ weightedSentimentSum l ∧
      weightedSentimentSum l ≤ totalWeight l := by
  induction l with
  | nil => simp [weightedSentimentSum, totalWeight]
  | cons a l ih =>
    obtain ⟨h1, h2, h3⟩ := h a (List.mem_cons_self a l)
    obtain ⟨ih1, ih2⟩ := ih fun b hb => h b (List.mem_cons_of_mem a hb)
    unfold weightedSentimentSum totalWeight at *
    simp only [List.map_cons, List.sum_cons]
    constructor <;> nlinarith

lemma sentimentScore_bounds {l : List ReviewAnalysis}
    (h : ∀ a ∈ l, -1 ≤ a.sentiment ∧ a.sentiment ≤ 1 ∧
      0 ≤ a.credibility_weight) :
    -1 ≤ sentimentScore l ∧ sentimentScore l ≤ 1 := by
  obtain ⟨hlo, hhi⟩ := weightedSentimentSum_bounds h
  unfold sentimentScore
  split_ifs with hpos
  · constructor
    · rw [le_div_iff₀ hpos]
      linarith
    · rw [div_le_one hpos]
      exact hhi
  · norm_num

lemma round2_mem01 {x : ℝ} (h0 : 0 ≤ x) (h1 : x ≤ 1) :
    0 ≤ round2 x ∧ round2 x ≤ 1 := by
  constructor
  · have := round2_ge (n := 0) (x := x) (by exact_mod_cast h0)
    exact_mod_cast this
  · have := round2_le (n := 1) (x := x) (by exact_mod_cast h1)
    exact_mod_cast this

lemma round2_mem_pm1 {x : ℝ} (h0 : -1 ≤ x) (h1 : x ≤ 1) :
    -1 ≤ round2 x ∧ round2 x ≤ 1 := by
  constructor
  · have := round2_ge (n := -1) (x := x) (by exact_mod_cast h0)
    exact_mod_cast this
  · have := round2_le (n := 1) (x := x) (by exact_mod_cast h1)
    exact_mod_cast this

lemma round2_intCast (n : ℤ) : round2 (n : ℝ) = n := by
  unfold round2
  rw [show ((n : ℝ) * 100) = ((100 * n : ℤ) : ℝ) by push_cast; ring,
    halfEven_intCast]
  push_cast
  ring

lemma confidenceOf_mem {rel : ℝ} (n : Nat) (h0 : 0 ≤ rel) (h1 : rel ≤ 1) :
    0 ≤ confidenceOf n rel ∧ confidenceOf n rel ≤ 1 := by
  unfold confidenceOf
  have hmin0 : 0 ≤ min 1 ((n : ℝ) / 15) := le_min (by norm_num) (by positivity)
  have hmin1 : min 1 ((n : ℝ) / 15) ≤ 1 := min_le_left _ _
  constructor <;> nlinarith

lemma analyze_review_weight (r : ScrapedReview) (o : BackendOutcome) :
    (analyze_review r o).credibility_weight
      = credibilityOf r.source_type r.upvotes := by
  cases o <;> rfl

lemma analysesOf_mem {analyze : ScrapedReview → ReviewAnalysis}
    {reviews : List ScrapedReview} {a : ReviewAnalysis}
    (ha : a ∈ analysesOf analyze reviews) :
    ∃ r ∈ reviews, a = analyze r := by
  unfold analysesOf at ha
  rw [List.mem_map] at ha
  obtain ⟨r, hr, rfl⟩ := ha
  exact ⟨r, List.take_subset 20 reviews hr, rfl⟩

/-- **C1 (amended).** For every non-empty input the returned score is an
integer clamped to [0,100], and confidence and reliability always lie in
[0,1]; but the sentiment, value and popularity fields are *not* clamped
against adversarial analyzer output: they lie in their declared ranges only
when every analyzed sentiment lies in [-1,1] (for sentiment and value) and
engagement counts are nonnegative (for popularity's lower bound; its upper
bound always holds). -/
theorem output_ranges (oracle : ScrapedReview → BackendOutcome)
    (summarize : String → ℚ → List String → List String → Nat → String)
    (product_name : String) (reviews : List ScrapedReview)
    (h : reviews ≠ []) :
    ∀ rating, rating = calculate_rating
        (fun r => analyze_review r (oracle r)) summarize product_name reviews →
      (0 ≤ rating.ai_rating ∧ rating.ai_rating ≤ 100) ∧
      (0 ≤ rating.confidence ∧ rating.confidence ≤ 1) ∧
      (0 ≤ rating.reliability_score ∧ rating.reliability_score ≤ 1) ∧
      rating.popularity_score ≤ 1 ∧
      ((∀ r ∈ reviews, -1 ≤ (analyze_review r (oracle r)).sentiment ∧
          (analyze_review r (oracle r)).sentiment ≤ 1) →
        (-1 ≤ rating.sentiment_score ∧ rating.sentiment_score ≤ 1) ∧
        (0 ≤ rating.value_score ∧ rating.value_score ≤ 1)) ∧
      ((∀ r ∈ reviews, 0 ≤ r.upvotes.getD 0 ∧ 0 ≤ r.comment_count.getD 0) →
        0 ≤ rating.popularity_score) := by
  intro rating hr
  subst hr
  rw [calculate_rating_of_ne_nil _ _ _ h]
  simp only [mainRating]
  have hrel := reliabilityScore_mem
    ((analysesOf (fun r => analyze_review r (oracle r)) reviews).map
      (fun a => a.sentiment))
  refine ⟨⟨le_max_left _ _, max_le (by norm_num) (min_le_left _ _)⟩,
    ?_, round2_mem01 hrel.1 hrel.2, ?_, ?_, ?_⟩
  · have hconf := confidenceOf_mem reviews.length hrel.1 hrel.2
    exact round2_mem01 hconf.1 hconf.2
  · have hple : ((popularityScore reviews : ℚ) : ℝ) ≤ ((1 : ℤ) : ℝ) := by
      have : popularityScore reviews ≤ 1 := min_le_left _ _
      push_cast
      exact_mod_cast this
    have := round2_le hple
    exact_mod_cast this
  · intro hsent
    have hb : ∀ a ∈ analysesOf (fun r => analyze_review r (oracle r)) reviews,
        -1 ≤ a.sentiment ∧ a.sentiment ≤ 1 ∧ 0 ≤ a.credibility_weight := by
      intro a ha
      obtain ⟨r, hrr, rfl⟩ := analysesOf_mem ha
      obtain ⟨h1, h2⟩ := hsent r hrr
      refine ⟨h1, h2, ?_⟩
      have := credibilityOf_ge_half r.source_type r.upvotes
      have heq := (analyze_review_weight r (oracle r))
      rw [heq]
      linarith
    obtain ⟨hs1, hs2⟩ := sentimentScore_bounds hb
    constructor
    · exact round2_mem_pm1 (by exact_mod_cast hs1) (by exact_mod_cast hs2)
    · have hv1 : 0 ≤ valueScore (sentimentScore
          (analysesOf (fun r => analyze_review r (oracle r)) reviews)) := by
        unfold valueScore
        linarith
      have hv2 : valueScore (sentimentScore
          (analysesOf (fun r => analyze_review r (oracle r)) reviews)) ≤ 1 := by
        unfold valueScore
        linarith
      exact round2_mem01 (by exact_mod_cast hv1) (by exact_mod_cast hv2)
  · intro heng
    have hup : 0 ≤ totalUpvotes reviews := by
      refine List.sum_nonneg ?_
      intro x hx
      rw [List.mem_map] at hx
      obtain ⟨r, hrr, rfl⟩ := hx
      exact (heng r hrr).1
    have hcm : 0 ≤ totalComments reviews := by
      refine List.sum_nonneg ?_
      intro x hx
      rw [List.mem_map] at hx
      obtain ⟨r, hrr, rfl⟩ := hx
      exact (heng r hrr).2
    have hpop : 0 ≤ popularityScore reviews := by
      unfold popularityScore popularityRaw
      refine le_min (by norm_num) ?_
      have h1 : (0 : ℚ) ≤ (totalUpvotes reviews : ℚ) := by exact_mod_cast hup
      have h2 : (0 : ℚ) ≤ (totalComments reviews : ℚ) := by exact_mod_cast hcm
      positivity
    have hge : (((0 : ℤ)) : ℝ) ≤ ((popularityScore reviews : ℚ) : ℝ) := by
      push_cast
      exact_mod_cast hpop
    have := round2_ge hge
    exact_mod_cast this

/-- Witness for C1's amended theorem at a concrete one-review input. -/
theorem output_ranges_witness :
    0 ≤ (calculate_rating (fun r => analyze_review r BackendOutcome.callFailed)
        exSummarize "X" [exReview]).ai_rating ∧
    -1 ≤ (calculate_rating (fun r => analyze_review r BackendOutcome.callFailed)
        exSummarize "X" [exReview]).sentiment_score :=
  ⟨((output_ranges (fun _ => .callFailed) exSummarize "X" [exReview]
      (by simp)) _ rfl).1.1,
   (((output_ranges (fun _ => .callFailed) exSummarize "X" [exReview]
      (by simp)) _ rfl).2.2.2.2.1
      (fun r _ => by constructor <;> norm_num [analyze_review])).1.1⟩

lemma analysesOf_999 :
    analysesOf (fun r => analyze_review r (.parsed 999 [] [])) [exReview]
      = [⟨999, [], [], 6/10⟩] := by
  have h1 : analyze_review exReview (.parsed 999 [] []) = ⟨999, [], [], 6/10⟩ := by
    rw [show analyze_review exReview (.parsed 999 [] [])
        = ⟨999, [], [], credibilityOf "reddit" (some 7)⟩ from rfl,
      credibilityOf_reddit_7]
  simp [analysesOf, h1]

/-- **C1 (counterexample).** With an adversarial analyzer output of
sentiment = 999 on a single review, the returned sentiment score is 999 —
far outside its declared range [-1,1]: the aggregator never clamps it. -/
theorem output_range_counterexample :
    (calculate_rating (fun r => analyze_review r (.parsed 999 [] []))
        exSummarize "X" [exReview]).sentiment_score = 999 ∧
    1 < (calculate_rating (fun r => analyze_review r (.parsed 999 [] []))
        exSummarize "X" [exReview]).sentiment_score := by
  have hs : sentimentScore (analysesOf
      (fun r => analyze_review r (.parsed 999 [] [])) [exReview]) = 999 := by
    rw [analysesOf_999]
    norm_num [sentimentScore, totalWeight, weightedSentimentSum]
  have hfield : (calculate_rating (fun r => analyze_review r (.parsed 999 [] []))
      exSummarize "X" [exReview]).sentiment_score = round2 ((999 : ℚ) : ℝ) := by
    rw [calculate_rating_of_ne_nil _ _ _ (by simp)]
    simp only [mainRating]
    rw [hs]
  rw [hfield, show ((999 : ℚ) : ℝ) = ((999 : ℤ) : ℝ) by norm_num,
    round2_intCast]
  norm_num

/-! ### C8: frequency counting and the stable descending sort -/

lemma countOf_bumpCount (l : List (String × Nat)) (q k : String) :
    countOf (bumpCount l q) k = countOf l k + (if q = k then 1 else 0) := by
  induction l with
  | nil => simp [bumpCount, countOf]
  | cons p rest ih =>
    obtain ⟨k', n⟩ := p
    by_cases h1 : k' = q
    · subst h1
      simp only [bumpCount, if_pos rfl, countOf]
      by_cases h2 : k' = k
      · subst h2
        simp
      · simp [h2]
    · simp only [bumpCount, if_neg h1, countOf]
      by_cases h2 : k' = k
      · have hqk : ¬ q = k := fun he => h1 (h2.trans he.symm)
        simp [h2, hqk]
      · simp [h2, ih]

lemma countOf_addPhrases (ps : List String) (l : List (String × Nat))
    (k : String) (hk : k ≠ "") :
    countOf (addPhrases l ps) k
      = countOf l k + (ps.map normalizePhrase).count k := by
  induction ps generalizing l with
  | nil => simp [addPhrases]
  | cons p ps ih =>
    rw [show addPhrases l (p :: ps)
        = addPhrases (if normalizePhrase p = "" then l
            else bumpCount l (normalizePhrase p)) ps from rfl]
    by_cases h : normalizePhrase p = ""
    · rw [if_pos h, ih]
      have hpk : ¬ normalizePhrase p = k := fun he => hk (he ▸ h)
      simp [List.count_cons, hpk]
    · rw [if_neg h, ih, countOf_bumpCount]
      by_cases h2 : normalizePhrase p = k
      · simp [List.count_cons, h2]
        omega
      · simp [List.count_cons, h2]

lemma addPhrases_append (acc : List (String × Nat)) (ps qs : List String) :
    addPhrases acc (ps ++ qs) = addPhrases (addPhrases acc ps) qs := by
  simp only [addPhrases]
  exact List.foldl_append _ _ _ _

lemma foldl_addPhrases (f : ReviewAnalysis → List String)
    (analyses : List ReviewAnalysis) (acc : List (String × Nat)) :
    analyses.foldl (fun acc a => addPhrases acc (f a)) acc
      = addPhrases acc (analyses.flatMap f) := by
  induction analyses generalizing acc with
  | nil => rfl
  | cons a as ih =>
    show as.foldl _ (addPhrases acc (f a)) = addPhrases acc (f a ++ as.flatMap f)
    rw [ih, addPhrases_append]

lemma insertDesc_perm (x : String × Nat) (l : List (String × Nat)) :
    (insertDesc x l).Perm (x :: l) := by
  induction l with
  | nil => exact List.Perm.refl _
  | cons y ys ih =>
    simp only [insertDesc]
    split_ifs with h
    · exact (ih.cons y).trans (List.Perm.swap x y ys)
    · exact List.Perm.refl _

lemma sortDescByCount_perm (l : List (String × Nat)) :
    (sortDescByCount l).Perm l := by
  induction l with
  | nil => exact List.Perm.refl _
  | cons a as ih =>
    exact (insertDesc_perm a (sortDescByCount as)).trans (ih.cons a)

lemma insertDesc_sorted {x : String × Nat} {l : List (String × Nat)}
    (hl : l.Pairwise (fun a b => b.2 ≤ a.2)) :
    (insertDesc x l).Pairwise (fun a b => b.2 ≤ a.2) := by
  induction l with
  | nil => simp [insertDesc]
  | cons y ys ih =>
    rw [List.pairwise_cons] at hl
    obtain ⟨hy, hys⟩ := hl
    simp only [insertDesc]
    split_ifs with h
    · rw [List.pairwise_cons]
      refine ⟨?_, ih hys⟩
      intro z hz
      rcases List.mem_cons.1 ((insertDesc_perm x ys).mem_iff.1 hz) with rfl | hz'
      · exact le_of_lt h
      · exact hy z hz'
    · rw [List.pairwise_cons]
      refine ⟨?_, List.pairwise_cons.2 ⟨hy, hys⟩⟩
      intro z hz
      rcases List.mem_cons.1 hz with rfl | hz'
      · exact not_lt.1 h
      · exact le_trans (hy z hz') (not_lt.1 h)

lemma sortDescByCount_sorted (l : List (String × Nat)) :
    (sortDescByCount l).Pairwise (fun a b => b.2 ≤ a.2) := by
  induction l with
  | nil => simp [sortDescByCount]
  | cons a as ih => exact insertDesc_sorted ih

lemma insertDesc_filter (x : String × Nat) (l : List (String × Nat)) (n : Nat) :
    (insertDesc x l).filter (fun p => p.2 == n)
      = if x.2 = n then x :: l.filter (fun p => p.2 == n)
        else l.filter (fun p => p.2 == n) := by
  induction l with
  | nil =>
    by_cases h : x.2 = n <;> simp [insertDesc, List.filter_cons, h]
  | cons y ys ih =>
    simp only [insertDesc]
    by_cases hlt : x.2 < y.2
    · rw [if_pos hlt, List.filter_cons]
      by_cases hxn : x.2 = n
      · have hyn : ¬ (y.2 == n) = true := by
          simp only [beq_iff_eq]
          omega
        rw [if_neg hyn, ih, if_pos hxn, if_pos hxn, List.filter_cons,
          if_neg hyn]
      · rw [ih, if_neg hxn, if_neg hxn, List.filter_cons]
    · rw [if_neg hlt, List.filter_cons]
      by_cases hxn : x.2 = n
      · rw [if_pos (show (x.2 == n) = true by simpa using hxn), if_pos hxn]
      · rw [if_neg (show ¬ (x.2 == n) = true by simpa using hxn), if_neg hxn]

lemma sortDescByCount_filter (l : List (String × Nat)) (n : Nat) :
    (sortDescByCount l).filter (fun p => p.2 == n)
      = l.filter (fun p => p.2 == n) := by
  induction l with
  | nil => rfl
  | cons a as ih =>
    show (insertDesc a (sortDescByCount as)).filter _ = _
    rw [insertDesc_filter]
    by_cases h : a.2 = n
    · rw [if_pos h, ih, List.filter_cons, if_pos (by simpa using h)]
    · rw [if_neg h, ih, List.filter_cons, if_neg (by simpa using h)]

/-- **C8.** (i) The frequency dict merges phrases that agree after
lower-casing and trimming: the count stored under each non-empty normalized
key equals the number of phrase occurrences (across all analyses, in order)
normalizing to it. (ii) The model of Python's stable `sorted(..., key=count,
reverse=True)` is a permutation of the buckets, sorted by non-increasing
count, and for every frequency value preserves the original first-seen
(insertion) order of its buckets. (iii) The output lists are the first 5
entries of that sort, re-capitalized for display. -/
theorem pros_cons_aggregation :
    (∀ analyses : List ReviewAnalysis, ∀ k : String, k ≠ "" →
      countOf (prosCounts analyses) k
        = ((analyses.flatMap (fun a => a.pros)).map normalizePhrase).count k ∧
      countOf (consCounts analyses) k
        = ((analyses.flatMap (fun a => a.cons)).map normalizePhrase).count k) ∧
    (∀ counts : List (String × Nat),
      (sortDescByCount counts).Perm counts ∧
      (sortDescByCount counts).Pairwise (fun a b => b.2 ≤ a.2) ∧
      (∀ n : Nat, (sortDescByCount counts).filter (fun p => p.2 == n)
          = counts.filter (fun p => p.2 == n))) ∧
    (∀ (analyze : ScrapedReview → ReviewAnalysis)
        (summarize : String → ℚ → List String → List String → Nat → String)
        (product_name : String) (reviews : List ScrapedReview),
      reviews ≠ [] →
      (calculate_rating analyze summarize product_name reviews).pros
        = ((sortDescByCount (prosCounts (analysesOf analyze reviews))).take 5).map
            (fun p => capitalize p.1) ∧
      (calculate_rating analyze summarize product_name reviews).cons
        = ((sortDescByCount (consCounts (analysesOf analyze reviews))).take 5).map
            (fun p => capitalize p.1)) := by
  refine ⟨?_, fun counts => ⟨sortDescByCount_perm counts,
      sortDescByCount_sorted counts, sortDescByCount_filter counts⟩, ?_⟩
  · intro analyses k hk
    constructor
    · rw [show prosCounts analyses
          = addPhrases [] (analyses.flatMap (fun a => a.pros)) from
          foldl_addPhrases (fun a => a.pros) analyses []]
      rw [countOf_addPhrases _ _ _ hk]
      simp [countOf]
    · rw [show consCounts analyses
          = addPhrases [] (analyses.flatMap (fun a => a.cons)) from
          foldl_addPhrases (fun a => a.cons) analyses []]
      rw [countOf_addPhrases _ _ _ hk]
      simp [countOf]
  · intro analyze summarize product_name reviews h
    rw [calculate_rating_of_ne_nil _ _ _ h]
    exact ⟨rfl, rfl⟩

/-- Witness for C8 at concrete inputs. -/
theorem pros_cons_aggregation_witness :
    countOf (prosCounts [⟨0, ["Great Bass", " great bass "], [], 1⟩])
        "great bass"
      = ((([⟨0, ["Great Bass", " great bass "], [], 1⟩]
            : List ReviewAnalysis).flatMap
          (fun a => a.pros)).map normalizePhrase).count "great bass" ∧
    (calculate_rating exAnalyze exSummarize "X" [exReview]).pros
      = ((sortDescByCount
          (prosCounts (analysesOf exAnalyze [exReview]))).take 5).map
          (fun p => capitalize p.1) :=
  ⟨(pros_cons_aggregation.1 [⟨0, ["Great Bass", " great bass "], [], 1⟩]
      "great bass" (by decide)).1,
   (pros_cons_aggregation.2.2 exAnalyze exSummarize "X" [exReview]
      (by simp)).1⟩

end Shopii
